import Mathlib

/-!
Verification development for the `gsync` package: a generic wrapper
`Map[K, V]` around Go's `sync.Map` (src/map.go).

The underlying `sync.Map` is modelled, under sequential (single-caller)
semantics, as an association list `List (K × V)`: `syncLoad`, `syncStore`,
`syncDelete`, `syncLoadAndDelete`, `syncSwap`, `syncLoadOrStore`,
`syncCompareAndSwap`, `syncCompareAndDelete` embed the corresponding
`sync.Map` methods. A `none` result of `syncLoad` plays the role of the
`nil` interface value Go returns for an absent key.

The wrapper methods of `Map[K, V]` are translated one-to-one from
src/map.go. Go's zero value of `V` is `(default : V)` from `Inhabited V`.
Methods that mutate the receiver in place are embedded as functions
returning the updated map. The wrapper `Swap` performs the unguarded type
assertion `a.(V)` on the previous value returned by `sync.Map.Swap`; a Go
type assertion on a `nil` interface value panics, which the embedding
renders as an `Option` result, `none` being the panic.
-/

namespace Gsync

variable {K V : Type} [DecidableEq K]

/-- Lookup in the underlying map: `sync.Map.Load`. Returns the boxed value
or `none` (the `nil` interface) when the key is absent. -/
def syncLoad : List (K × V) → K → Option V
  | [], _ => none
  | p :: rest, k => if p.1 = k then some p.2 else syncLoad rest k

/-- Update in the underlying map: `sync.Map.Store`. Replaces the entry for
the key, or appends a fresh entry when the key is absent. -/
def syncStore : List (K × V) → K → V → List (K × V)
  | [], k, v => [(k, v)]
  | p :: rest, k, v => if p.1 = k then (k, v) :: rest else p :: syncStore rest k v

/-- Removal in the underlying map: `sync.Map.Delete`. Keys are unique in a
Go map, so removing every entry with the key is the faithful embedding. -/
def syncDelete (d : List (K × V)) (k : K) : List (K × V) :=
  d.filter (fun p => decide (p.1 ≠ k))

/-- `sync.Map.LoadAndDelete`: removes the key if present, returning the
previous boxed value and the updated map. -/
def syncLoadAndDelete (d : List (K × V)) (k : K) : Option V × List (K × V) :=
  match syncLoad d k with
  | none => (none, d)
  | some v => (some v, syncDelete d k)

/-- `sync.Map.Swap`: stores the new value and returns the previous boxed
value, `none` (the `nil` interface) when the key was absent. -/
def syncSwap (d : List (K × V)) (k : K) (v : V) : Option V × List (K × V) :=
  (syncLoad d k, syncStore d k v)

/-- `sync.Map.LoadOrStore`: returns the existing value if present,
otherwise stores and returns the given value, with the loaded flag. -/
def syncLoadOrStore (d : List (K × V)) (k : K) (v : V) : V × Bool × List (K × V) :=
  match syncLoad d k with
  | some a => (a, true, d)
  | none => (v, false, syncStore d k v)

/-- `sync.Map.CompareAndSwap`: swaps in the new value iff the key is
present and its current value equals the expected one. -/
def syncCompareAndSwap [DecidableEq V] (d : List (K × V)) (k : K) (old new : V) :
    Bool × List (K × V) :=
  match syncLoad d k with
  | some cur => if cur = old then (true, syncStore d k new) else (false, d)
  | none => (false, d)

/-- `sync.Map.CompareAndDelete`: deletes the key iff it is present and
its current value equals the expected one. -/
def syncCompareAndDelete [DecidableEq V] (d : List (K × V)) (k : K) (old : V) :
    Bool × List (K × V) :=
  match syncLoad d k with
  | some cur => if cur = old then (true, syncDelete d k) else (false, d)
  | none => (false, d)

/-- The generic wrapper `Map[K, V]` of src/map.go: a struct holding the
underlying `sync.Map`. -/
structure Map (K V : Type) where
  data : List (K × V)

/-- `Map.Load` (src/map.go:27): checks the ok flag before the type
assertion, so an absent key yields the zero value and `false`. -/
def Map.Load [Inhabited V] (m : Map K V) (k : K) : V × Bool :=
  match syncLoad m.data k with
  | none => (default, false)
  | some v => (v, true)

/-- `Map.Get` (src/map.go:36): `Load` with the ok flag discarded. -/
def Map.Get [Inhabited V] (m : Map K V) (k : K) : V :=
  (m.Load k).1

/-- `Map.Has` (src/map.go:42): whether the key is present. -/
def Map.Has (m : Map K V) (k : K) : Bool :=
  (syncLoad m.data k).isSome

/-- `Map.LoadAndDelete` (src/map.go:49): checks the loaded flag before the
type assertion, so an absent key yields the zero value and `false`. -/
def Map.LoadAndDelete [Inhabited V] (m : Map K V) (k : K) : V × Bool × Map K V :=
  let r := syncLoadAndDelete m.data k
  match r.1 with
  | none => (default, false, ⟨r.2⟩)
  | some v => (v, true, ⟨r.2⟩)

/-- `Map.Store` (src/map.go:58). -/
def Map.Store (m : Map K V) (k : K) (v : V) : Map K V :=
  ⟨syncStore m.data k v⟩

/-- `Map.LoadOrStore` (src/map.go:65). -/
def Map.LoadOrStore (m : Map K V) (k : K) (v : V) : V × Bool × Map K V :=
  let r := syncLoadOrStore m.data k v
  (r.1, r.2.1, ⟨r.2.2⟩)

/-- `Map.GetOrStore` (src/map.go:73): `LoadOrStore` with the loaded flag
discarded. -/
def Map.GetOrStore (m : Map K V) (k : K) (v : V) : V × Map K V :=
  let r := syncLoadOrStore m.data k v
  (r.1, ⟨r.2.2⟩)

/-- `Map.Delete` (src/map.go:79). -/
def Map.Delete (m : Map K V) (k : K) : Map K V :=
  ⟨syncDelete m.data k⟩

/-- `Map.Swap` (src/map.go:85): `a, loaded := m.data.Swap(key, new);
return a.(V), loaded`. The type assertion `a.(V)` is not guarded by
`loaded`; when the key was absent `a` is the `nil` interface and the
assertion panics, modelled by `none`. -/
def Map.Swap (m : Map K V) (k : K) (new : V) : Option (V × Bool × Map K V) :=
  let r := syncSwap m.data k new
  match r.1 with
  | some old => some (old, true, ⟨r.2⟩)
  | none => none

/-- `Map.CompareAndSwap` (src/map.go:93). -/
def Map.CompareAndSwap [DecidableEq V] (m : Map K V) (k : K) (old new : V) :
    Bool × Map K V :=
  let r := syncCompareAndSwap m.data k old new
  (r.1, ⟨r.2⟩)

/-- `Map.CompareAndDelete` (src/map.go:99). -/
def Map.CompareAndDelete [DecidableEq V] (m : Map K V) (k : K) (old : V) :
    Bool × Map K V :=
  let r := syncCompareAndDelete m.data k old
  (r.1, ⟨r.2⟩)

/-- `Map.Compute` (src/map.go:104): `m.Store(key, f(m.Get(key)))`. -/
def Map.Compute [Inhabited V] (m : Map K V) (k : K) (f : V → V) : Map K V :=
  m.Store k (f (m.Get k))

/-- `Map.ComputeAndGet` (src/map.go:109):
`return m.GetOrStore(key, f(m.Get(key)))`. -/
def Map.ComputeAndGet [Inhabited V] (m : Map K V) (k : K) (f : V → V) : V × Map K V :=
  m.GetOrStore k (f (m.Get k))

/-- `Map.ComputeAndLoad` (src/map.go:114):
`return m.LoadOrStore(key, f(m.Get(key)))`. -/
def Map.ComputeAndLoad [Inhabited V] (m : Map K V) (k : K) (f : V → V) :
    V × Bool × Map K V :=
  m.LoadOrStore k (f (m.Get k))

/-- `Map.Len` (src/map.go:119): a `Range` that increments a counter for
each entry. -/
def Map.Len (m : Map K V) : Nat :=
  m.data.foldl (fun l _ => l + 1) 0

/-- `Map.Keys` (src/map.go:129): a `Range` appending each key. -/
def Map.Keys (m : Map K V) : List K :=
  m.data.foldl (fun ks p => ks ++ [p.1]) []

/-- `Map.Values` (src/map.go:139): a `Range` appending each value. -/
def Map.Values (m : Map K V) : List V :=
  m.data.foldl (fun vs p => vs ++ [p.2]) []

/-- `Map.Clear` (src/map.go:149): a `Range` over the entries, deleting
each observed key from the live map. -/
def Map.Clear (m : Map K V) : Map K V :=
  ⟨m.data.foldl (fun d p => syncDelete d p.1) m.data⟩

/-- The comma-space separator of `strings.Join(toPrint, ", ")`. -/
def commaSep : String := ", "

/-- The colon-space separator of `fmt.Sprintf`. -/
def colonSep : String := ": "

/-- The opening brace of the rendering. -/
def lbrace : String := "\x7b"

/-- The closing brace of the rendering. -/
def rbrace : String := "\x7d"

/-- `Map.String` (src/map.go:157): a `Range` appending the rendering of
each entry, joined with comma-space and wrapped in braces. -/
def Map.toString [ToString K] [ToString V] (m : Map K V) : String :=
  let toPrint := m.data.foldl
    (fun acc p => acc ++ [ToString.toString p.1 ++ colonSep ++ ToString.toString p.2]) []
  lbrace ++ String.intercalate commaSep toPrint ++ rbrace

/-! Helper lemmas about the underlying map model. -/

theorem syncLoad_syncStore_self (d : List (K × V)) (k : K) (v : V) :
    syncLoad (syncStore d k v) k = some v := by
  induction d with
  | nil => simp [syncStore, syncLoad]
  | cons p rest ih =>
    by_cases h : p.1 = k
    · simp [syncStore, syncLoad, h]
    · simp [syncStore, syncLoad, h, ih]

theorem syncLoad_syncStore_other (d : List (K × V)) (k k' : K) (v : V) (h : k' ≠ k) :
    syncLoad (syncStore d k v) k' = syncLoad d k' := by
  induction d with
  | nil => simp [syncStore, syncLoad, Ne.symm h]
  | cons p rest ih =>
    by_cases hp : p.1 = k
    · simp [syncStore, syncLoad, hp, Ne.symm h]
    · simp [syncStore, syncLoad, hp, ih]

theorem syncLoad_eq_none (d : List (K × V)) (k : K) :
    syncLoad d k = none ↔ ∀ p ∈ d, p.1 ≠ k := by
  induction d with
  | nil => simp [syncLoad]
  | cons p rest ih => by_cases h : p.1 = k <;> simp [syncLoad, h, ih]

theorem syncLoad_syncDelete_self (d : List (K × V)) (k : K) :
    syncLoad (syncDelete d k) k = none := by
  rw [syncLoad_eq_none]
  intro p hp
  rw [syncDelete, List.mem_filter] at hp
  simpa using hp.2

theorem syncLoad_syncDelete_other (d : List (K × V)) (k k' : K) (h : k' ≠ k) :
    syncLoad (syncDelete d k) k' = syncLoad d k' := by
  induction d with
  | nil => simp [syncDelete, syncLoad]
  | cons p rest ih =>
    by_cases hp : p.1 = k
    · simp [syncDelete, List.filter_cons, syncLoad, hp, Ne.symm h] at ih ⊢
      exact ih
    · simp [syncDelete, List.filter_cons, syncLoad, hp] at ih ⊢
      rw [ih]

theorem syncDelete_of_absent (d : List (K × V)) (k : K) (h : syncLoad d k = none) :
    syncDelete d k = d := by
  rw [syncLoad_eq_none] at h
  rw [syncDelete]
  exact List.filter_eq_self.mpr (fun p hp => by simpa using h p hp)

theorem syncDelete_idem (d : List (K × V)) (k : K) :
    syncDelete (syncDelete d k) k = syncDelete d k :=
  syncDelete_of_absent _ _ (syncLoad_syncDelete_self d k)

theorem foldl_syncDelete_eq_nil (iter : List (K × V)) :
    ∀ acc : List (K × V), (∀ p ∈ acc, ∃ q ∈ iter, q.1 = p.1) →
      iter.foldl (fun d p => syncDelete d p.1) acc = [] := by
  induction iter with
  | nil =>
    intro acc h
    match acc with
    | [] => rfl
    | p :: rest => exact absurd (h p (List.mem_cons_self p rest)) (by simp)
  | cons q rest ih =>
    intro acc h
    rw [List.foldl_cons]
    apply ih
    intro p hp
    rw [syncDelete, List.mem_filter] at hp
    have hne : p.1 ≠ q.1 := by simpa using hp.2
    obtain ⟨r, hr, hrk⟩ := h p hp.1
    rcases List.mem_cons.mp hr with rfl | hr'
    · exact absurd hrk.symm hne
    · exact ⟨r, hr', hrk⟩

theorem foldl_append_singleton {α β : Type} (g : α → β) (d : List α) :
    ∀ acc : List β, d.foldl (fun acc p => acc ++ [g p]) acc = acc ++ d.map g := by
  induction d with
  | nil => intro acc; simp
  | cons p rest ih => intro acc; simp [List.foldl_cons, ih]

/-! Claim theorems. -/

/-- C1: the claim says that `Swap(k, new)` on an absent key returns the
zero value of `V` and `false`. The code instead performs the unguarded
type assertion `a.(V)` on the `nil` previous value returned by
`sync.Map.Swap` and panics. On the empty map, `Swap 0 1` panics (`none`)
rather than returning `(0, false)`. -/
theorem swap_panics_on_absent_key :
    Map.Swap (⟨[]⟩ : Map Nat Nat) 0 1 = none := rfl

/-- C2: `CompareAndSwap(k, old, new)` returns `true` and replaces the
value at `k` with `new` iff `k` currently maps to `old`; after a
successful call `Load k` returns `(new, true)`; after a failed call the
map is unchanged. -/
theorem compareAndSwap_spec [DecidableEq V] [Inhabited V]
    (m : Map K V) (k : K) (old new : V) :
    ((Map.CompareAndSwap m k old new).1 = true ↔ syncLoad m.data k = some old) ∧
    ((Map.CompareAndSwap m k old new).1 = true →
      Map.Load (Map.CompareAndSwap m k old new).2 k = (new, true)) ∧
    ((Map.CompareAndSwap m k old new).1 = false →
      (Map.CompareAndSwap m k old new).2 = m) := by
  rcases h : syncLoad m.data k with _ | cur
  · simp [Map.CompareAndSwap, syncCompareAndSwap, h]
  · by_cases hc : cur = old
    · subst hc
      simp [Map.CompareAndSwap, syncCompareAndSwap, h, Map.Load, syncLoad_syncStore_self]
    · simp [Map.CompareAndSwap, syncCompareAndSwap, h, hc]

/-- C2 witness: a concrete successful compare-and-swap. -/
theorem compareAndSwap_spec_witness :
    Map.Load (Map.CompareAndSwap (⟨[(0, 1)]⟩ : Map Nat Nat) 0 1 2).2 0 = (2, true) :=
  (compareAndSwap_spec (⟨[(0, 1)]⟩ : Map Nat Nat) 0 1 2).2.1 (by decide)

/-- C3: `LoadOrStore(k, v)` returns the current value with `loaded=true`
and leaves the map unchanged when `k` is present; when `k` is absent it
stores `v` and returns `(v, false)`. -/
theorem loadOrStore_spec (m : Map K V) (k : K) (v : V) :
    (∀ a, syncLoad m.data k = some a → Map.LoadOrStore m k v = (a, true, m)) ∧
    (syncLoad m.data k = none →
      Map.LoadOrStore m k v = (v, false, Map.Store m k v)) := by
  constructor
  · intro a h; simp [Map.LoadOrStore, syncLoadOrStore, h]
  · intro h; simp [Map.LoadOrStore, syncLoadOrStore, h, Map.Store]

/-- C3 witness: a concrete present key. -/
theorem loadOrStore_spec_witness :
    Map.LoadOrStore (⟨[(0, 5)]⟩ : Map Nat Nat) 0 7 = (5, true, ⟨[(0, 5)]⟩) :=
  (loadOrStore_spec (⟨[(0, 5)]⟩ : Map Nat Nat) 0 7).1 5 (by decide)

/-- C4: `LoadAndDelete(k)` removes a present key and returns its prior
value with `true`; on an absent key it returns the zero value with
`false` and the map is unchanged. -/
theorem loadAndDelete_spec [Inhabited V] (m : Map K V) (k : K) :
    (∀ v, syncLoad m.data k = some v →
      (Map.LoadAndDelete m k).1 = v ∧ (Map.LoadAndDelete m k).2.1 = true ∧
      (Map.LoadAndDelete m k).2.2 = Map.Delete m k ∧
      syncLoad (Map.LoadAndDelete m k).2.2.data k = none) ∧
    (syncLoad m.data k = none → Map.LoadAndDelete m k = (default, false, m)) := by
  constructor
  · intro v h
    simp [Map.LoadAndDelete, syncLoadAndDelete, h, Map.Delete, syncLoad_syncDelete_self]
  · intro h
    simp [Map.LoadAndDelete, syncLoadAndDelete, h]

/-- C4 witness: `LoadAndDelete` of a missing key on the empty map. -/
theorem loadAndDelete_spec_witness :
    Map.LoadAndDelete (⟨[]⟩ : Map Nat Nat) 3 = (0, false, ⟨[]⟩) :=
  (loadAndDelete_spec (⟨[]⟩ : Map Nat Nat) 3).2 (by decide)

/-- C5: after `Store(k, v)`, `Load k` returns `(v, true)`; after
`Store(k, v1)` then `Store(k, v2)`, `Load k` returns `(v2, true)` — the
last store wins. -/
theorem store_load_spec [Inhabited V] (m : Map K V) (k : K) (v v1 v2 : V) :
    Map.Load (Map.Store m k v) k = (v, true) ∧
    Map.Load (Map.Store (Map.Store m k v1) k v2) k = (v2, true) := by
  constructor <;> simp [Map.Load, Map.Store, syncLoad_syncStore_self]

/-- C6: immediately after `Clear()`, `Len` is `0` and `Keys` and `Values`
are both empty — every association has been removed. -/
theorem clear_spec (m : Map K V) :
    Map.Len (Map.Clear m) = 0 ∧ Map.Keys (Map.Clear m) = [] ∧
    Map.Values (Map.Clear m) = [] := by
  have h : (Map.Clear m).data = [] :=
    foldl_syncDelete_eq_nil m.data m.data (fun p hp => ⟨p, hp, rfl⟩)
  refine ⟨?_, ?_, ?_⟩ <;> simp [Map.Len, Map.Keys, Map.Values, h]

/-- C7: `Delete(k)` removes the key, is a no-op (not an error) when the
key is absent, and deleting twice equals deleting once. -/
theorem delete_spec (m : Map K V) (k : K) :
    syncLoad (Map.Delete m k).data k = none ∧
    (syncLoad m.data k = none → Map.Delete m k = m) ∧
    Map.Delete (Map.Delete m k) k = Map.Delete m k := by
  refine ⟨syncLoad_syncDelete_self m.data k, ?_, ?_⟩
  · intro h
    show (⟨syncDelete m.data k⟩ : Map K V) = m
    rw [syncDelete_of_absent m.data k h]
  · show (⟨syncDelete (syncDelete m.data k) k⟩ : Map K V) = ⟨syncDelete m.data k⟩
    rw [syncDelete_idem]

/-- C7 witness: deleting an absent key from the empty map. -/
theorem delete_spec_witness :
    Map.Delete (⟨[]⟩ : Map Nat Nat) 1 = ⟨[]⟩ :=
  (delete_spec (⟨[]⟩ : Map Nat Nat) 1).2.1 (by decide)

/-- C8: `String()` renders the map as the brace-wrapped comma-space join
of the `key: value` renderings in traversal order; the empty map renders
as exactly the two braces. -/
theorem string_spec [ToString K] [ToString V] (m : Map K V) :
    Map.toString m =
      lbrace ++ String.intercalate commaSep
        (m.data.map (fun p => ToString.toString p.1 ++ colonSep ++ ToString.toString p.2))
        ++ rbrace ∧
    Map.toString (⟨[]⟩ : Map K V) = lbrace ++ rbrace := by
  constructor
  · simp [Map.toString, foldl_append_singleton]
  · rfl

/-- C9: `Compute(k, f)` stores `f` applied to the current value, or to
the zero value when the key is absent, so `Load k` afterwards returns
that result with `true` — the key is present even if absent before. -/
theorem compute_spec [Inhabited V] (m : Map K V) (k : K) (f : V → V) :
    (∀ v, syncLoad m.data k = some v →
      Map.Load (Map.Compute m k f) k = (f v, true)) ∧
    (syncLoad m.data k = none →
      Map.Load (Map.Compute m k f) k = (f default, true)) := by
  constructor
  · intro v h
    simp [Map.Compute, Map.Get, Map.Load, Map.Store, h, syncLoad_syncStore_self]
  · intro h
    simp [Map.Compute, Map.Get, Map.Load, Map.Store, h, syncLoad_syncStore_self]

/-- C9 witness: `Compute` on an absent key applies `f` to the zero value
and makes the key present. -/
theorem compute_spec_witness :
    Map.Load (Map.Compute (⟨[]⟩ : Map Nat Nat) 2 (fun x => x + 1)) 2 = (1, true) :=
  (compute_spec (⟨[]⟩ : Map Nat Nat) 2 (fun x => x + 1)).2 (by decide)

/-- C10: on a key present with value `v`, `ComputeAndGet` returns `v` and
`ComputeAndLoad` returns `(v, true)`, and neither changes the map — the
transformed value is computed but discarded. -/
theorem computeAndGetLoad_spec [Inhabited V] (m : Map K V) (k : K) (f : V → V)
    (v : V) (h : syncLoad m.data k = some v) :
    Map.ComputeAndGet m k f = (v, m) ∧ Map.ComputeAndLoad m k f = (v, true, m) := by
  constructor <;>
    simp [Map.ComputeAndGet, Map.ComputeAndLoad, Map.GetOrStore, Map.LoadOrStore,
      syncLoadOrStore, Map.Get, Map.Load, h]

/-- C10 witness: a concrete present key with a transform that would
change the value. -/
theorem computeAndGetLoad_spec_witness :
    Map.ComputeAndGet (⟨[(4, 9)]⟩ : Map Nat Nat) 4 (fun x => x + 1) = (9, ⟨[(4, 9)]⟩) ∧
    Map.ComputeAndLoad (⟨[(4, 9)]⟩ : Map Nat Nat) 4 (fun x => x + 1) = (9, true, ⟨[(4, 9)]⟩) :=
  computeAndGetLoad_spec (⟨[(4, 9)]⟩ : Map Nat Nat) 4 (fun x => x + 1) 9 (by decide)

end Gsync
